import Mathlib

/-!
Verification development for the Product Hunt scraper/analyzer repository.

The Python sources (`ph_scraper.py`, `ph_analyzer.py`) are shallowly embedded
below.  Python strings are modelled as lists of characters, Python `int` as
`Int`, fallible/looping code as explicit recursion over a fuel parameter
returning `Option`, and the upstream HTTP API as an explicit oracle
(a function from the index of the request to the response it yields).
Logging and `time.sleep` calls have no observable effect on the returned
data and are omitted.
-/

/-- Python strings are modelled as lists of characters. -/
abbrev Str := List Char

/-- Python truthiness of an optional string: `None` and the empty string are falsy. -/
def strTruthy : Option Str → Bool
  | none => false
  | some s => !s.isEmpty

/-- The separator `", "` used by the scraper's joins and the analyzer's splits. -/
def commaSpace : Str := ", ".toList

/-- Auxiliary scanner for Python `s.split(", ")`: scans left to right, emitting a
field whenever the two-character separator `", "` occurs; `cur` holds the current
field reversed. -/
def splitCommaSpaceAux : Str → Str → List Str
  | [], cur => [cur.reverse]
  | ',' :: ' ' :: rest, cur => cur.reverse :: splitCommaSpaceAux rest []
  | c :: rest, cur => splitCommaSpaceAux rest (c :: cur)

/-- Python `s.split(", ")` (non-empty separator, non-overlapping, left-to-right;
the empty string splits to `[""]`). -/
def pySplitCommaSpace (s : Str) : List Str :=
  splitCommaSpaceAux s []

/-- One entry of a raw post's `media` list: `url` is always selected by the
GraphQL query; `type` is read with `.get` in the source, hence optional. -/
structure MediaItem where
  url : Str
  type : Option Str
deriving DecidableEq, Repr

/-- RawPost: the API-shaped record produced by one `edges[].node` of a posts
query (`ph_scraper.py` GraphQL query).  Fields read with `.get` in
`process_post_data` are optional; `topics` stands for the nested
`topics.edges[].node.name` list (`none` when the `topics` field is missing);
`makers` holds the optional `username` of each maker; `id` is selected by the
query and identifies the post. -/
structure RawPost where
  id : Str
  name : Option Str
  tagline : Option Str
  description : Option Str
  url : Option Str
  website : Option Str
  votesCount : Option Int
  commentsCount : Option Int
  createdAt : Option Str
  topics : Option (List Str)
  thumbnailUrl : Option Str
  media : List MediaItem
  makers : List (Option Str)
deriving DecidableEq, Repr

/-- NormalizedPost: the flat row built by `ProductHuntScraper.process_post_data`
(one dict per post, exported as one CSV row). -/
structure ProcessedPost where
  productName : Str
  tagline : Str
  description : Str
  productUrl : Str
  websiteUrl : Str
  upvotes : Int
  commentsCount : Int
  launchDate : Str
  topics : Str
  thumbnailImageUrl : Str
  galleryImageUrls : Str
  demoVideoUrl : Str
  makers : Str
deriving DecidableEq, Repr

/-- Embedding of the body of the `for post in posts` loop of
`ProductHuntScraper.process_post_data` (ph_scraper.py lines 642-683):
extracts topic names, truthy maker usernames, media URLs by type, and builds
the flat record; `.get` defaults become `Option.getD`, `", ".join` becomes
`List.intercalate commaSpace`, and `createdAt.split("T")[0]` (guarded by
truthiness of `createdAt`) becomes `takeWhile (· != 'T')`. -/
def process_post_data_one (post : RawPost) : ProcessedPost :=
  let topics := post.topics.getD []
  let makers := post.makers.filterMap (fun u =>
    match u with
    | some s => if s.isEmpty then none else some s
    | none => none)
  let media_items := post.media
  let gallery_images := (media_items.filter (fun m => m.type == some ("image".toList))).map MediaItem.url
  let videos := (media_items.filter (fun m => m.type == some ("video".toList))).map MediaItem.url
  { productName := post.name.getD []
    tagline := post.tagline.getD []
    description := post.description.getD []
    productUrl := post.url.getD []
    websiteUrl := post.website.getD []
    upvotes := post.votesCount.getD 0
    commentsCount := post.commentsCount.getD 0
    launchDate :=
      if strTruthy post.createdAt then (post.createdAt.getD []).takeWhile (fun c => c != 'T') else []
    topics := List.intercalate commaSpace topics
    thumbnailImageUrl := post.thumbnailUrl.getD []
    galleryImageUrls := List.intercalate commaSpace gallery_images
    demoVideoUrl := List.intercalate commaSpace videos
    makers := List.intercalate commaSpace makers }

/-- Embedding of `ProductHuntScraper.process_post_data`: processes every raw
post into one row, in order. -/
def process_post_data (posts : List RawPost) : List ProcessedPost :=
  posts.map process_post_data_one

/-- One page of a posts response, after the source's defaulting reads
`pageInfo.get("hasNextPage", False)`, `pageInfo.get("endCursor", None)` and
`[edge["node"] for edge in ...["edges"]]`. -/
structure Page where
  hasNextPage : Bool
  endCursor : Option Str
  items : List RawPost
deriving DecidableEq, Repr

/-- Outcome of a single page request, as discriminated by the source:
a transport-level error (`requests.exceptions.RequestException`), a GraphQL
error payload (`"errors" in data`), an unexpected response structure, or a
well-formed page. -/
inductive ApiResult where
  | transportError
  | graphqlErrors
  | malformed
  | ok (page : Page)
deriving DecidableEq, Repr

/-- Whether the response is one of the three failure cases. -/
def ApiResult.isFailure : ApiResult → Bool
  | .ok _ => false
  | _ => true

/-- The items a response contributes when it is a well-formed page. -/
def ApiResult.pageItems : ApiResult → List RawPost
  | .ok p => p.items
  | _ => []

/-- `MAX_RETRIES` from ph_scraper.py. -/
def MAX_RETRIES : Nat := 3

/-- Outcome of the inner retry loop: either a well-formed page was obtained, or
all attempts failed and the fetch returns what it has accumulated.  `nextReq`
is the index of the next HTTP request after the loop. -/
inductive RetryOutcome where
  | success (page : Page) (nextReq : Nat)
  | giveUp (nextReq : Nat)
deriving DecidableEq, Repr

/-- Embedding of the `for attempt in range(MAX_RETRIES)` retry loop of
`get_posts_by_date` (ph_scraper.py lines 268-329): each failed attempt retries
(after a backoff sleep, not modelled) unless it was the last attempt, in which
case the fetch returns the accumulated posts.  `remaining` counts attempts left
(initially `MAX_RETRIES`); `api` is the response oracle indexed by request
number. -/
def retryPage (api : Nat → ApiResult) : Nat → Nat → RetryOutcome
  | reqIdx, 0 => .giveUp reqIdx
  | reqIdx, remaining + 1 =>
    match api reqIdx with
    | .ok p => .success p (reqIdx + 1)
    | _ => if remaining == 0 then .giveUp (reqIdx + 1) else retryPage api (reqIdx + 1) remaining

/-- Embedding of the pagination `while has_next_page and (len(all_posts) < limit
or limit <= 0)` loop of `get_posts_by_date` (ph_scraper.py lines 256-343).
State mirrors the Python locals: accumulated posts, the `has_next_page` flag,
the `cursor` variable, and the last truthy cursor written into
`variables["cursor"]`.  After a successful page the whole page is appended and
the loop breaks if `0 < limit <= len(all_posts)`.  `fuel` bounds the number of
loop iterations (the Python loop can run unboundedly); `none` means the fuel
was exhausted.  The returned `Nat` counts the HTTP page requests issued. -/
def fetchLoop (api : Nat → ApiResult) (limit : Int) :
    Nat → Nat → List RawPost → Bool → Option Str → Option Str → Option (List RawPost × Nat)
  | 0, _, _, _, _, _ => none
  | fuel + 1, reqIdx, acc, hasNext, cursorVar, sentCursor =>
    if hasNext && (decide ((acc.length : Int) < limit) || decide (limit ≤ 0)) then
      match retryPage api reqIdx MAX_RETRIES with
      | .giveUp next => some (acc, next)
      | .success p next =>
        if decide (0 < limit) && decide (limit ≤ (((acc ++ p.items).length : Nat) : Int)) then
          some (acc ++ p.items, next)
        else
          fetchLoop api limit fuel next (acc ++ p.items) p.hasNextPage p.endCursor
            (if strTruthy cursorVar then cursorVar else sentCursor)
    else
      some (acc, reqIdx)

/-- Embedding of `ProductHuntScraper.get_posts_by_date`: on authentication
failure it returns `[]` without issuing any page request; otherwise it runs the
pagination loop starting with no posts, `has_next_page = True` and no cursor.
The result pairs the fetched raw posts with the number of page requests
issued. -/
def get_posts_by_date (authOk : Bool) (api : Nat → ApiResult) (limit : Int) (fuel : Nat) :
    Option (List RawPost × Nat) :=
  if authOk then fetchLoop api limit fuel 0 [] true none none else some ([], 0)

/-- Embedding of `ProductHuntScraper.get_top_posts`: for today/yesterday it
delegates to `get_posts_by_date`; for the other periods it runs a pagination
loop whose body is character-for-character the one of `get_posts_by_date`
(only the query payload and log messages differ), with the same
authentication guard. -/
def get_top_posts (authOk : Bool) (api : Nat → ApiResult) (limit : Int) (fuel : Nat) :
    Option (List RawPost × Nat) :=
  if authOk then fetchLoop api limit fuel 0 [] true none none else some ([], 0)

/-- Response of the credential-exchange endpoint: either a transport error, or
a JSON body that does or does not contain an `access_token` field. -/
inductive AuthResponse where
  | transportError
  | ok (hasToken : Bool)
deriving DecidableEq, Repr

/-- Embedding of `ProductHuntScraper.authenticate` (ph_scraper.py lines
127-181): reuse a cached unexpired token; fail when client credentials are
missing; fail on a transport error; fail when the response lacks
`access_token`; otherwise succeed. -/
def authenticate (cachedValid : Bool) (hasCreds : Bool) (resp : AuthResponse) : Bool :=
  if cachedValid then true
  else if !hasCreds then false
  else
    match resp with
    | .transportError => false
    | .ok hasToken => hasToken

/-- Embedding of `ProductHuntScraper.scrape_recent_days` (ph_scraper.py lines
687-744): for each day index in `dayOrder` (the source shuffles
`range(days)` in stealth mode, so `dayOrder` is an arbitrary arrangement of
the day indices), fetch that day's posts, process them, and append the rows.
`apiFor d` is the response oracle for the day with index `d`. -/
def scrape_recent_days (authOk : Bool) (apiFor : Nat → Nat → ApiResult) (dayOrder : List Nat)
    (limit : Int) (fuel : Nat) : Option (List ProcessedPost) :=
  match dayOrder with
  | [] => some []
  | d :: ds =>
    match get_posts_by_date authOk (apiFor d) limit fuel with
    | none => none
    | some (posts, _) =>
      match scrape_recent_days authOk apiFor ds limit fuel with
      | none => none
      | some rest => some (process_post_data posts ++ rest)

/-- The raw posts underlying a `scrape_recent_days` run (the same recursion
before the per-day `process_post_data` step; used to speak about post ids,
which `process_post_data` does not export). -/
def scrape_recent_days_raw (authOk : Bool) (apiFor : Nat → Nat → ApiResult) (dayOrder : List Nat)
    (limit : Int) (fuel : Nat) : Option (List RawPost) :=
  match dayOrder with
  | [] => some []
  | d :: ds =>
    match get_posts_by_date authOk (apiFor d) limit fuel with
    | none => none
    | some (posts, _) =>
      match scrape_recent_days_raw authOk apiFor ds limit fuel with
      | none => none
      | some rest => some (posts ++ rest)

/-- Concatenation of the items of the well-formed pages among the responses
`api i, api (i+1), ..., api (i+k-1)`. -/
def okCat (api : Nat → ApiResult) : Nat → Nat → List RawPost
  | _, 0 => []
  | i, k + 1 => (api i).pageItems ++ okCat api (i + 1) k

/-- One row of the analyzer's data frame after `ProductHuntAnalyzer.load_data`:
`Launch Date` parsed with `pd.to_datetime` to a calendar date (modelled as a
day index; an empty cell reads as NaN and parses silently to NaT, modelled as
`none`), `Upvotes` and `Comments Count` coerced to integers with NaN filled by
zero, `Product Name` and `Topics` kept as raw CSV cells (`none` models the NaN
that pandas produces for an empty field). -/
structure Record where
  productName : Option Str
  tagline : Str
  launchDate : Option Nat
  upvotes : Int
  commentsCount : Int
  topics : Option Str
  websiteUrl : Str
deriving DecidableEq, Repr

/-- Ascending comparison on upvote counts, the sort key of `get_top_products`. -/
def upvoteLE (a b : Record) : Prop := a.upvotes ≤ b.upvotes

instance : DecidableRel upvoteLE := fun a b => Int.decLe a.upvotes b.upvotes

instance : IsTotal Record upvoteLE := ⟨fun a b => Int.le_total a.upvotes b.upvotes⟩

instance : IsTrans Record upvoteLE := ⟨fun _ _ _ hab hbc => le_trans hab hbc⟩

/-- Embedding of `df.sort_values('Upvotes', ascending=False)`: for a
descending sort pandas' `nargsort` reverses the key column and the index
array, takes the ascending `argsort` of the reversed keys, and reverses the
resulting indexer again — so the rows are the reverse of a stable ascending
sort of the reversed frame (numpy's `argsort` kernel is the stable insertion
sort on frames of at most 16 rows, modelled by `List.insertionSort`).  The
net permutation is a stable descending sort: ties keep original order. -/
def sort_values_upvotes_desc (recs : List Record) : List Record :=
  (List.insertionSort upvoteLE recs.reverse).reverse

/-- Embedding of `ProductHuntAnalyzer.get_top_products` (ph_analyzer.py lines
214-234): empty table when no data is loaded, otherwise sort descending by
upvotes and take the first `n` rows (`head(n)`); the column sub-selection
keeps whole rows here since it drops no row. -/
def get_top_products (n : Nat) (df : Option (List Record)) : List Record :=
  match df with
  | none => []
  | some recs => (sort_values_upvotes_desc recs).take n

/-- Descending comparison on counts, the key of
`sorted(topic_counts.items(), key=lambda x: x[1], reverse=True)` (Python's
`sorted` with `reverse=True` is stable descending). -/
def countGE (a b : Str × Nat) : Prop := b.2 ≤ a.2

instance : DecidableRel countGE := fun a b => Nat.decLe b.2 a.2

/-- Embedding of `ProductHuntAnalyzer.analyze_topics` (ph_analyzer.py lines
148-173): empty mapping when no data is loaded; otherwise every non-NaN
`Topics` cell is split on `", "` (the `Topic List` column built by
`load_data`), the tokens are concatenated (`all_topics`), counted
(`Counter`, whose iteration order is first-occurrence order, i.e. `dedup`
order), and the (topic, count) pairs are stably sorted by descending count. -/
def analyze_topics (df : Option (List Record)) : List (Str × Nat) :=
  match df with
  | none => []
  | some recs =>
    let all_topics := ((recs.filterMap Record.topics).map pySplitCommaSpace).flatten
    let pairs := all_topics.dedup.map (fun t => (t, all_topics.count t))
    List.insertionSort countGE pairs

/-- Largest element of an integer list (the list is non-empty wherever this is
used: pandas `max` over a non-empty group). -/
def listMaxInt (l : List Int) : Int :=
  l.foldl max (l.headD 0)

/-- Pandas `median` over an integer column: middle element of the ascending
order, or the average of the two middle elements for an even count. -/
def medianInt (l : List Int) : ℚ :=
  let s := List.insertionSort (fun a b : Int => a ≤ b) l
  if s.length % 2 = 1 then ((s.getD (s.length / 2) 0 : Int) : ℚ)
  else (((s.getD (s.length / 2 - 1) 0 : Int) : ℚ) + ((s.getD (s.length / 2) 0 : Int) : ℚ)) / 2

/-- One group of the daily rollup produced by
`ProductHuntAnalyzer.analyze_daily_trends`: one row per launch date, carrying
the aggregates of the group (means and the median as exact rationals, where
the source holds floats). -/
structure DailyRow where
  date : Nat
  products_count : Nat
  total_upvotes : Int
  avg_upvotes : ℚ
  median_upvotes : ℚ
  max_upvotes : Int
  total_comments : Int
  avg_comments : ℚ
deriving DecidableEq, Repr

/-- Aggregates of one launch-date group of `analyze_daily_trends` (the pandas
`agg` dict of ph_analyzer.py lines 186-190 after column renaming): the group
holds the rows whose (non-null) launch date is `d`; `products_count` is
`agg({'Product Name': 'count'})`, which counts only the group's non-null
names; the numeric aggregates range over the whole group since `Upvotes` and
`Comments Count` carry no NaN after loading. -/
def dailyRowFor (recs : List Record) (d : Nat) : DailyRow :=
  let grp := recs.filter (fun r => r.launchDate == some d)
  let ups := grp.map Record.upvotes
  let cms := grp.map Record.commentsCount
  { date := d
    products_count := (grp.filter (fun r => r.productName.isSome)).length
    total_upvotes := ups.sum
    avg_upvotes := ((ups.sum : Int) : ℚ) / (grp.length : ℚ)
    median_upvotes := medianInt ups
    max_upvotes := listMaxInt ups
    total_comments := cms.sum
    avg_comments := ((cms.sum : Int) : ℚ) / (grp.length : ℚ) }

/-- Embedding of `ProductHuntAnalyzer.analyze_daily_trends` (ph_analyzer.py
lines 175-212): empty table when no data is loaded; otherwise one aggregated
row per distinct non-null launch date occurring in the data (pandas `groupby`
drops NaT keys and emits the remaining distinct keys in ascending order). -/
def analyze_daily_trends (df : Option (List Record)) : List DailyRow :=
  match df with
  | none => []
  | some recs =>
    let dates := (recs.filterMap Record.launchDate).dedup
    let sortedDates := List.insertionSort (fun a b : Nat => a ≤ b) dates
    sortedDates.map (dailyRowFor recs)

/-- The populated value of `ProductHuntAnalyzer.analyze_basic_stats`: total
count, date range, and the upvote statistics (mean as an exact rational; the
source additionally rounds the mean to two decimals for display). -/
structure BasicStats where
  total_products : Nat
  date_start : Nat
  date_end : Nat
  date_days : Int
  avg_upvotes : ℚ
  median_upvotes : ℚ
  max_upvotes : Int
  max_product : Option Str
deriving DecidableEq, Repr

/-- Result of `analyze_basic_stats`: the empty dict returned when no data is
loaded, the exception raised on an empty frame (`idxmax` of an empty column),
or the populated statistics. -/
inductive BasicStatsResult where
  | emptyDict
  | raisesError
  | stats (s : BasicStats)
deriving DecidableEq, Repr

/-- Name of the first record attaining the maximal upvote count (`idxmax`
returns the first occurrence; `df.loc[...]['Product Name']` reads its name,
which can itself be NaN). -/
def maxUpvoteProduct (recs : List Record) (m : Int) : Option Str :=
  match recs.find? (fun r => r.upvotes == m) with
  | some r => r.productName
  | none => none

/-- Embedding of `ProductHuntAnalyzer.analyze_basic_stats` (ph_analyzer.py
lines 113-146): `{}` when no data is loaded; a raised exception on an empty
frame (`idxmax` of an empty column) or when every launch date is NaT
(`strftime` of the NaT min/max raises); otherwise the statistics record
(pandas `min`/`max` over the date column skip NaT). -/
def analyze_basic_stats (df : Option (List Record)) : BasicStatsResult :=
  match df with
  | none => .emptyDict
  | some [] => .raisesError
  | some recs =>
    let dates := recs.filterMap Record.launchDate
    if dates.isEmpty then .raisesError else
    let ups := recs.map Record.upvotes
    let mx := listMaxInt ups
    let dmin := dates.foldl min (dates.headD 0)
    let dmax := dates.foldl max (dates.headD 0)
    .stats
      { total_products := recs.length
        date_start := dmin
        date_end := dmax
        date_days := (dmax : Int) - (dmin : Int) + 1
        avg_upvotes := ((ups.sum : Int) : ℚ) / (recs.length : ℚ)
        median_upvotes := medianInt ups
        max_upvotes := mx
        max_product := maxUpvoteProduct recs mx }

/-- Concrete raw post used by concrete fetch runs. -/
def samplePost (tag : Char) : RawPost :=
  { id := [tag], name := some [tag], tagline := none, description := none, url := none,
    website := none, votesCount := some 5, commentsCount := some 0, createdAt := none,
    topics := none, thumbnailUrl := none, media := [], makers := [] }

/-- Concrete 3-item first page. -/
def c3Page : Page :=
  { hasNextPage := true, endCursor := some ['c'],
    items := [samplePost 'a', samplePost 'b', samplePost 'd'] }

/-- Oracle: the first request delivers `c3Page`, every later request fails. -/
def c3Api : Nat → ApiResult := fun i => if i = 0 then .ok c3Page else .transportError

/-- Concrete 5-item single page used to exercise the limit overshoot. -/
def c4Page : Page :=
  { hasNextPage := true, endCursor := some ['c'],
    items := [samplePost 'a', samplePost 'b', samplePost 'd', samplePost 'e', samplePost 'f'] }

/-- Oracle: the first request delivers the 5-item page, later requests fail. -/
def c4Api : Nat → ApiResult := fun i => if i = 0 then .ok c4Page else .transportError

/-- Oracle whose second page repeats the post of the first page (same id). -/
def c2Api : Nat → ApiResult := fun i =>
  if i = 0 then .ok { hasNextPage := true, endCursor := some ['c'], items := [samplePost 'x'] }
  else if i = 1 then .ok { hasNextPage := false, endCursor := none, items := [samplePost 'x'] }
  else .transportError

/-- Single well-formed page with two distinct posts, used by the witness. -/
def c2wPage : Page :=
  { hasNextPage := false, endCursor := none, items := [samplePost 'u', samplePost 'v'] }

/-- Per-day oracle for the witness: day 0 answers its first request with
`c2wPage`, everything else fails. -/
def c2wApiFor : Nat → Nat → ApiResult := fun d i =>
  if d = 0 then (if i = 0 then .ok c2wPage else .transportError) else .transportError

/-- Concrete raw post lacking `topics` and `votesCount`, with a creation
timestamp. -/
def c6Post : RawPost :=
  { id := ['p'], name := some ("P".toList), tagline := none, description := none, url := none,
    website := none, votesCount := none, commentsCount := none,
    createdAt := some ("2024-01-02T10:00:00Z".toList),
    topics := none, thumbnailUrl := none, media := [], makers := [] }

/-- Two records with equal upvote counts, used to exhibit tie behaviour. -/
def tieRecs : List Record :=
  [{ productName := some ['A'], tagline := [], launchDate := some 0, upvotes := 5,
     commentsCount := 0, topics := none, websiteUrl := [] },
   { productName := some ['B'], tagline := [], launchDate := some 0, upvotes := 5,
     commentsCount := 0, topics := none, websiteUrl := [] }]

/-- Two records launched the same day, both with non-null names and dates,
used by the daily-rollup witness. -/
def c7recs : List Record :=
  [{ productName := some ['A'], tagline := [], launchDate := some 3, upvotes := 4,
     commentsCount := 1, topics := none, websiteUrl := [] },
   { productName := some ['B'], tagline := [], launchDate := some 3, upvotes := 6,
     commentsCount := 1, topics := none, websiteUrl := [] }]

/-- Two records launched the same day, one of them with a NaN `Product Name`
cell (as the scraper itself exports when the raw post lacks a name). -/
def c7nanRecs : List Record :=
  [{ productName := some ['A'], tagline := [], launchDate := some 3, upvotes := 4,
     commentsCount := 1, topics := none, websiteUrl := [] },
   { productName := none, tagline := [], launchDate := some 3, upvotes := 6,
     commentsCount := 1, topics := none, websiteUrl := [] }]

/-- Outcome of one completion request against a hosted model: either the call
raises (network/model failure) or it returns the response text. -/
inductive LLMOutcome where
  | raises (msg : Str)
  | responds (text : Str)
deriving DecidableEq, Repr

/-- Return value of `analyze_with_llm`: an explicit error payload
(`{"error": reason}`), a parsed structured narrative, or the free-text
fallback (`{"raw_analysis": text}`). -/
inductive LLMResult where
  | errorPayload (msg : Str)
  | narrative (fields : List (Str × Str))
  | rawAnalysis (text : Str)
deriving DecidableEq, Repr

/-- The error message returned when data or the client is missing. -/
def errNotConfigured : Str := "Data not loaded or Groq API key not configured".toList

/-- Python `text.find('\x7b')`: index of the first opening brace, if any. -/
def findBrace (t : Str) : Option Nat := t.findIdx? (fun c => c == '\x7b')

/-- Python `text.rfind('\x7d')`: index of the last closing brace, if any. -/
def rfindBrace (t : Str) : Option Nat :=
  match t.reverse.findIdx? (fun c => c == '\x7d') with
  | none => none
  | some k => some (t.length - 1 - k)

/-- Embedding of the response-parsing phase of `analyze_with_llm`
(ph_analyzer.py lines 302-317): locate the span from the first opening brace
to the last closing brace; when the span exists, try to parse it as JSON
(`jsonParse` stands for `json.loads`, which is outside this repository);
when the span is absent or parsing fails, fall back to the raw response
text. -/
def parse_llm_response (jsonParse : Str → Option (List (Str × Str))) (t : Str) : LLMResult :=
  match findBrace t, rfindBrace t with
  | some s, some e =>
    if s < e + 1 then
      match jsonParse ((t.drop s).take (e + 1 - s)) with
      | some fields => .narrative fields
      | none => .rawAnalysis t
    else .rawAnalysis t
  | _, _ => .rawAnalysis t

/-- Whether a call of `analyze_with_llm` raises past its boundary or returns
a value: the prompt construction (ph_analyzer.py lines 248-250) reads
`self.topics_count.items()` and `self.top_products[...]` outside the `try`
block, so it raises (AttributeError/TypeError on `None`) when those
aggregates were never computed. -/
inductive LLMRun where
  | raisesAttrError
  | returns (r : LLMResult)
deriving DecidableEq, Repr

/-- Embedding of `ProductHuntAnalyzer.analyze_with_llm` (ph_analyzer.py lines
236-326): error payload when data or client is missing; then the unguarded
prompt construction, which raises when `topics_count` or `top_products` is
still `None` (lines 248-250 sit before the `try`); then one request against
the primary model, one retry against the fallback model if the primary
raises, an error payload carrying the fallback's message if both raise, and
otherwise the response-parsing phase.  The outer `except Exception` makes
every outcome past the prompt construction a returned value. -/
def analyze_with_llm (dfLoaded clientOk : Bool) (topicsCount : Option (List (Str × Nat)))
    (topProducts : Option (List Record)) (primary fallback : LLMOutcome)
    (jsonParse : Str → Option (List (Str × Str))) : LLMRun :=
  if dfLoaded && clientOk then
    match topicsCount, topProducts with
    | some _, some _ =>
      .returns
        (match primary with
          | .responds t => parse_llm_response jsonParse t
          | .raises _ =>
            match fallback with
            | .responds t => parse_llm_response jsonParse t
            | .raises m2 => .errorPayload m2)
    | _, _ => .raisesAttrError
  else .returns (.errorPayload errNotConfigured)

/-- Unfolding lemma: one more response in front of an `okCat` window. -/
theorem okCat_succ (api : Nat → ApiResult) (i k : Nat) :
    okCat api i (k + 1) = (api i).pageItems ++ okCat api (i + 1) k := rfl

/-- Splitting an `okCat` window. -/
theorem okCat_add (api : Nat → ApiResult) (i a b : Nat) :
    okCat api i (a + b) = okCat api i a ++ okCat api (i + a) b := by
  induction a generalizing i with
  | zero => simp [okCat]
  | succ a ih =>
    have : a + 1 + b = (a + b) + 1 := by omega
    rw [this, okCat_succ, okCat_succ, ih (i + 1), List.append_assoc]
    have harith : i + 1 + a = i + (a + 1) := by omega
    rw [harith]

/-- A window consisting only of failed responses contributes no items. -/
theorem okCat_of_failures (api : Nat → ApiResult) (i k : Nat)
    (h : ∀ j, i ≤ j → j < i + k → (api j).isFailure = true) :
    okCat api i k = [] := by
  induction k generalizing i with
  | zero => rfl
  | succ k ih =>
    rw [okCat_succ]
    have h0 : (api i).isFailure = true := h i (le_refl i) (by omega)
    have : (api i).pageItems = [] := by
      cases hc : api i with
      | ok p => rw [hc] at h0; simp [ApiResult.isFailure] at h0
      | transportError => rfl
      | graphqlErrors => rfl
      | malformed => rfl
    rw [this, ih (i + 1) (fun j hj hj' => h j (by omega) (by omega))]
    rfl

/-- When the retry loop obtains a page, the request window it consumed consists
of failures followed by exactly that page, so the window's well-formed items
are exactly the page's items. -/
theorem retryPage_success (api : Nat → ApiResult) :
    ∀ rem i p next, retryPage api i rem = .success p next →
      i < next ∧ next ≤ i + rem ∧ okCat api i (next - i) = p.items ∧ api (next - 1) = .ok p := by
  intro rem
  induction rem with
  | zero => intro i p next h; simp [retryPage] at h
  | succ rem ih =>
    intro i p next h
    rw [retryPage] at h
    cases hc : api i with
    | ok q =>
      rw [hc] at h
      cases h
      refine ⟨by omega, by omega, ?_, by simpa using hc⟩
      have : i + 1 - i = 1 := by omega
      rw [this, okCat_succ, hc]
      simp [ApiResult.pageItems, okCat]
    | transportError =>
      rw [hc] at h
      by_cases hr : rem = 0
      · subst hr; simp at h
      · simp [hr] at h
        obtain ⟨h1, h2, h3, h4⟩ := ih (i + 1) p next h
        refine ⟨by omega, by omega, ?_, h4⟩
        have : next - i = (next - (i + 1)) + 1 := by omega
        rw [this, okCat_succ, hc]
        simpa [ApiResult.pageItems] using h3
    | graphqlErrors =>
      rw [hc] at h
      by_cases hr : rem = 0
      · subst hr; simp at h
      · simp [hr] at h
        obtain ⟨h1, h2, h3, h4⟩ := ih (i + 1) p next h
        refine ⟨by omega, by omega, ?_, h4⟩
        have : next - i = (next - (i + 1)) + 1 := by omega
        rw [this, okCat_succ, hc]
        simpa [ApiResult.pageItems] using h3
    | malformed =>
      rw [hc] at h
      by_cases hr : rem = 0
      · subst hr; simp at h
      · simp [hr] at h
        obtain ⟨h1, h2, h3, h4⟩ := ih (i + 1) p next h
        refine ⟨by omega, by omega, ?_, h4⟩
        have : next - i = (next - (i + 1)) + 1 := by omega
        rw [this, okCat_succ, hc]
        simpa [ApiResult.pageItems] using h3

/-- When the retry loop gives up, it consumed exactly `rem` requests, all of
them failures. -/
theorem retryPage_giveUp (api : Nat → ApiResult) :
    ∀ rem i next, retryPage api i rem = .giveUp next →
      next = i + rem ∧ okCat api i rem = [] := by
  intro rem
  induction rem with
  | zero =>
    intro i next h
    rw [retryPage] at h
    cases h
    exact ⟨by omega, rfl⟩
  | succ rem ih =>
    intro i next h
    rw [retryPage] at h
    cases hc : api i with
    | ok q => rw [hc] at h; cases h
    | transportError =>
      rw [hc] at h
      by_cases hr : rem = 0
      · subst hr
        simp at h
        refine ⟨by omega, ?_⟩
        rw [okCat_succ, hc]
        rfl
      · simp [hr] at h
        obtain ⟨h1, h2⟩ := ih (i + 1) next h
        refine ⟨by omega, ?_⟩
        rw [okCat_succ, hc, h2]
        rfl
    | graphqlErrors =>
      rw [hc] at h
      by_cases hr : rem = 0
      · subst hr
        simp at h
        refine ⟨by omega, ?_⟩
        rw [okCat_succ, hc]
        rfl
      · simp [hr] at h
        obtain ⟨h1, h2⟩ := ih (i + 1) next h
        refine ⟨by omega, ?_⟩
        rw [okCat_succ, hc, h2]
        rfl
    | malformed =>
      rw [hc] at h
      by_cases hr : rem = 0
      · subst hr
        simp at h
        refine ⟨by omega, ?_⟩
        rw [okCat_succ, hc]
        rfl
      · simp [hr] at h
        obtain ⟨h1, h2⟩ := ih (i + 1) next h
        refine ⟨by omega, ?_⟩
        rw [okCat_succ, hc, h2]
        rfl

/-- Main pagination invariant: whatever the pagination loop returns is the
previously accumulated list followed by the items of exactly the well-formed
pages among the requests it issued — every appended page is appended whole,
and every well-formed page obtained is appended. -/
theorem fetchLoop_items (api : Nat → ApiResult) (limit : Int) :
    ∀ fuel i acc hn cv sv res n,
      fetchLoop api limit fuel i acc hn cv sv = some (res, n) →
      i ≤ n ∧ res = acc ++ okCat api i (n - i) := by
  intro fuel
  induction fuel with
  | zero => intro i acc hn cv sv res n h; simp [fetchLoop] at h
  | succ fuel ih =>
    intro i acc hn cv sv res n h
    rw [fetchLoop] at h
    split at h
    · split at h
      · rename_i next hr
        simp only [Option.some.injEq, Prod.mk.injEq] at h
        obtain ⟨rfl, rfl⟩ := h
        obtain ⟨h1, h2⟩ := retryPage_giveUp api MAX_RETRIES i next hr
        have hni : next - i = MAX_RETRIES := by omega
        rw [hni, h2]
        exact ⟨by omega, by simp⟩
      · rename_i p next hr
        obtain ⟨hs1, hs2, hs3, hs4⟩ := retryPage_success api MAX_RETRIES i p next hr
        split at h
        · simp only [Option.some.injEq, Prod.mk.injEq] at h
          obtain ⟨rfl, rfl⟩ := h
          exact ⟨by omega, by rw [hs3]⟩
        · obtain ⟨ih1, ih2⟩ := ih next (acc ++ p.items) p.hasNextPage p.endCursor
            (if strTruthy cv then cv else sv) res n h
          refine ⟨by omega, ?_⟩
          have hsplit : n - i = (next - i) + (n - next) := by omega
          rw [hsplit, okCat_add]
          have hin : i + (next - i) = next := by omega
          rw [hin, hs3, ih2, List.append_assoc]
    · simp only [Option.some.injEq, Prod.mk.injEq] at h
      obtain ⟨rfl, rfl⟩ := h
      simp [okCat]

/-- When every attempt for a page fails, the retry loop gives up after exactly
`rem` requests. -/
theorem retryPage_all_fail (api : Nat → ApiResult) :
    ∀ rem i, (∀ a, a < rem → (api (i + a)).isFailure = true) →
      retryPage api i rem = .giveUp (i + rem) := by
  intro rem
  induction rem with
  | zero => intro i _; rfl
  | succ rem ih =>
    intro i hfail
    rw [retryPage]
    have h0 : (api i).isFailure = true := by simpa using hfail 0 (by omega)
    cases hc : api i with
    | ok p => rw [hc] at h0; simp [ApiResult.isFailure] at h0
    | transportError =>
      by_cases hr : rem = 0
      · subst hr; simp
      · have := ih (i + 1) (fun a ha => by
          have := hfail (a + 1) (by omega)
          simpa [Nat.add_assoc, Nat.add_comm 1 a] using this)
        simp [hr, this]
        omega
    | graphqlErrors =>
      by_cases hr : rem = 0
      · subst hr; simp
      · have := ih (i + 1) (fun a ha => by
          have := hfail (a + 1) (by omega)
          simpa [Nat.add_assoc, Nat.add_comm 1 a] using this)
        simp [hr, this]
        omega
    | malformed =>
      by_cases hr : rem = 0
      · subst hr; simp
      · have := ih (i + 1) (fun a ha => by
          have := hfail (a + 1) (by omega)
          simpa [Nat.add_assoc, Nat.add_comm 1 a] using this)
        simp [hr, this]
        omega

/-- When the loop guard is false — no further page is signalled, or a positive
limit has been reached — the loop returns the accumulated posts at once,
issuing no request. -/
theorem fetchLoop_exit (api : Nat → ApiResult) (limit : Int) (fuel i : Nat)
    (acc : List RawPost) (hn : Bool) (cv sv : Option Str)
    (hcond : hn = false ∨ (0 < limit ∧ limit ≤ (acc.length : Int))) :
    fetchLoop api limit (fuel + 1) i acc hn cv sv = some (acc, i) := by
  rw [fetchLoop]
  have hguard : (hn && (decide ((acc.length : Int) < limit) || decide (limit ≤ 0))) = false := by
    rcases hcond with h | ⟨h1, h2⟩
    · rw [h]; rfl
    · have d1 : decide ((acc.length : Int) < limit) = false := by
        simp only [decide_eq_false_iff_not, not_lt]
        omega
      have d2 : decide (limit ≤ 0) = false := by
        simp only [decide_eq_false_iff_not, not_le]
        omega
      rw [d1, d2]
      simp
  rw [hguard]
  simp

/-- When the loop guard is true — another page is signalled and the limit is
not yet reached (or is non-positive) — the loop issues at least one more page
request. -/
theorem fetchLoop_continues (api : Nat → ApiResult) (limit : Int) (fuel i : Nat)
    (acc : List RawPost) (cv sv : Option Str) (res : List RawPost) (n : Nat)
    (hcond : (acc.length : Int) < limit ∨ limit ≤ 0)
    (h : fetchLoop api limit (fuel + 1) i acc true cv sv = some (res, n)) :
    i < n := by
  rw [fetchLoop] at h
  have hguard : (true && (decide ((acc.length : Int) < limit) || decide (limit ≤ 0))) = true := by
    rcases hcond with h1 | h1 <;> simp [h1]
  rw [hguard] at h
  simp only [if_true] at h
  split at h
  · rename_i next hr
    simp only [Option.some.injEq, Prod.mk.injEq] at h
    obtain ⟨rfl, rfl⟩ := h
    obtain ⟨h1, _⟩ := retryPage_giveUp api MAX_RETRIES i next hr
    simp [MAX_RETRIES] at h1
    omega
  · rename_i p next hr
    obtain ⟨hs1, hs2, _, _⟩ := retryPage_success api MAX_RETRIES i p next hr
    split at h
    · simp only [Option.some.injEq, Prod.mk.injEq] at h
      obtain ⟨rfl, rfl⟩ := h
      omega
    · obtain ⟨hle, _⟩ := fetchLoop_items api limit fuel next (acc ++ p.items) p.hasNextPage
        p.endCursor (if strTruthy cv then cv else sv) res n h
      omega

/-- When a page request exhausts all its retry attempts, the loop returns the
posts accumulated before that page, as a normal value. -/
theorem fetchLoop_giveUp_returns (api : Nat → ApiResult) (limit : Int) (fuel i : Nat)
    (acc : List RawPost) (cv sv : Option Str)
    (hfail : ∀ a, a < MAX_RETRIES → (api (i + a)).isFailure = true)
    (hcond : (acc.length : Int) < limit ∨ limit ≤ 0) :
    fetchLoop api limit (fuel + 1) i acc true cv sv = some (acc, i + MAX_RETRIES) := by
  rw [fetchLoop]
  have hguard : (true && (decide ((acc.length : Int) < limit) || decide (limit ≤ 0))) = true := by
    rcases hcond with h1 | h1 <;> simp [h1]
  rw [hguard]
  simp only [if_true]
  rw [retryPage_all_fail api MAX_RETRIES i hfail]

/-- The fetch result never cuts a page: the accumulated count stays below a
positive limit until the final page is appended whole, so the result either
remains below the limit or exceeds it by less than the size of one delivered
page. -/
theorem fetchLoop_overshoot (api : Nat → ApiResult) (limit : Int) :
    ∀ fuel i acc hn cv sv res n,
      0 < limit → (acc.length : Int) < limit →
      fetchLoop api limit fuel i acc hn cv sv = some (res, n) →
      ((res.length : Int) < limit ∨
        ∃ j, i ≤ j ∧ j < n ∧ ∃ p, api j = .ok p ∧
          (res.length : Int) < limit + (p.items.length : Int)) := by
  intro fuel
  induction fuel with
  | zero => intro i acc hn cv sv res n _ _ h; simp [fetchLoop] at h
  | succ fuel ih =>
    intro i acc hn cv sv res n hl hacc h
    rw [fetchLoop] at h
    split at h
    · split at h
      · rename_i next hr
        simp only [Option.some.injEq, Prod.mk.injEq] at h
        obtain ⟨rfl, rfl⟩ := h
        exact Or.inl hacc
      · rename_i p next hr
        obtain ⟨hs1, hs2, hs3, hs4⟩ := retryPage_success api MAX_RETRIES i p next hr
        split at h
        · rename_i hb
          simp only [Option.some.injEq, Prod.mk.injEq] at h
          obtain ⟨rfl, rfl⟩ := h
          right
          refine ⟨next - 1, by omega, by omega, p, hs4, ?_⟩
          rw [List.length_append]
          push_cast
          omega
        · rename_i hb
          simp only [Bool.and_eq_true, decide_eq_true_eq, not_and, not_le] at hb
          have hacc' : ((acc ++ p.items).length : Int) < limit := by
            by_contra hc
            exact absurd (hb hl) (by omega)
          rcases ih next (acc ++ p.items) p.hasNextPage p.endCursor
              (if strTruthy cv then cv else sv) res n hl hacc' h with h1 | ⟨j, hj1, hj2, q, hq1, hq2⟩
          · exact Or.inl h1
          · exact Or.inr ⟨j, by omega, hj2, q, hq1, hq2⟩
    · simp only [Option.some.injEq, Prod.mk.injEq] at h
      obtain ⟨rfl, rfl⟩ := h
      exact Or.inl hacc

/-- C3: when some page request fails (transport error or upstream-reported
error) on every one of the `MAX_RETRIES` attempts, the fetch returns the items
accumulated from the pages fetched before the failure as a normal value; in
particular a successful 3-item first page followed by a second page that
exhausts its retries yields exactly those 3 records. -/
theorem fetch_returns_partial_on_page_failure :
    (∀ (api : Nat → ApiResult) (limit : Int) (fuel i : Nat) (acc : List RawPost)
        (cv sv : Option Str),
        (∀ a, a < MAX_RETRIES → (api (i + a)).isFailure = true) →
        ((acc.length : Int) < limit ∨ limit ≤ 0) →
        fetchLoop api limit (fuel + 1) i acc true cv sv = some (acc, i + MAX_RETRIES)) ∧
    (∀ (api : Nat → ApiResult) (p : Page) (fuel : Nat),
        api 0 = .ok p → p.hasNextPage = true → p.items.length = 3 →
        (∀ a, a < MAX_RETRIES → (api (1 + a)).isFailure = true) →
        get_posts_by_date true api 50 (fuel + 2) = some (p.items, 1 + MAX_RETRIES)) := by
  constructor
  · exact fun api limit fuel i acc cv sv hfail hcond =>
      fetchLoop_giveUp_returns api limit fuel i acc cv sv hfail hcond
  · intro api p fuel hok hnext hlen hfail
    rw [get_posts_by_date, if_pos rfl]
    show fetchLoop api 50 (fuel + 1 + 1) 0 [] true none none = some (p.items, 1 + MAX_RETRIES)
    rw [fetchLoop]
    have hguard :
        (true && (decide ((([] : List RawPost).length : Int) < 50) || decide ((50 : Int) ≤ 0))) =
          true := by decide
    rw [hguard]
    simp only [if_true]
    have hretry : retryPage api 0 MAX_RETRIES = .success p 1 := by
      rw [MAX_RETRIES, retryPage, hok]
    rw [hretry]
    dsimp only
    have hb :
        (decide ((0 : Int) < 50) &&
          decide ((50 : Int) ≤ ((([] : List RawPost) ++ p.items).length : Int))) = false := by
      simp [hlen]
    rw [hb]
    simp only [Bool.false_eq_true, if_false, List.nil_append]
    rw [hnext]
    have hsv : (if strTruthy none = true then (none : Option Str) else none) = none := by simp
    rw [hsv]
    exact fetchLoop_giveUp_returns api 50 fuel 1 p.items p.endCursor none hfail
      (Or.inl (by rw [hlen]; decide))

/-- Witness for C3 at a concrete oracle: 3-item page, then a page whose every
retry fails, yields exactly the 3 items as a normal return. -/
theorem fetch_returns_partial_on_page_failure_witness :
    get_posts_by_date true c3Api 50 2 = some (c3Page.items, 1 + MAX_RETRIES) :=
  fetch_returns_partial_on_page_failure.2 c3Api c3Page 0 rfl rfl rfl (by decide)

/-- C4: the pagination loop (i) exits at once, issuing no request, when no
further page is signalled or a positive limit has been reached; (ii) issues
another page request while a further page is signalled and the count is below
the limit or the limit is non-positive (zero means unbounded); (iii) returns
exactly the whole pages delivered (a page that crosses the limit is still
appended whole); and (iv) with a positive limit the result stays below the
limit or overshoots it by less than one delivered page — never truncated
mid-page. -/
theorem fetch_pagination_guard_and_page_atomicity :
    (∀ (api : Nat → ApiResult) (limit : Int) (fuel i : Nat) (acc : List RawPost) (hn : Bool)
        (cv sv : Option Str),
        (hn = false ∨ (0 < limit ∧ limit ≤ (acc.length : Int))) →
        fetchLoop api limit (fuel + 1) i acc hn cv sv = some (acc, i)) ∧
    (∀ (api : Nat → ApiResult) (limit : Int) (fuel i : Nat) (acc : List RawPost)
        (cv sv : Option Str) (res : List RawPost) (n : Nat),
        ((acc.length : Int) < limit ∨ limit ≤ 0) →
        fetchLoop api limit (fuel + 1) i acc true cv sv = some (res, n) → i < n) ∧
    (∀ (api : Nat → ApiResult) (limit : Int) (fuel : Nat) (res : List RawPost) (n : Nat),
        get_posts_by_date true api limit fuel = some (res, n) → res = okCat api 0 n) ∧
    (∀ (api : Nat → ApiResult) (limit : Int) (fuel : Nat) (res : List RawPost) (n : Nat),
        0 < limit → get_posts_by_date true api limit fuel = some (res, n) →
        ((res.length : Int) < limit ∨
          ∃ j, j < n ∧ ∃ p, api j = .ok p ∧
            (res.length : Int) < limit + (p.items.length : Int))) := by
  refine ⟨fetchLoop_exit, fetchLoop_continues, ?_, ?_⟩
  · intro api limit fuel res n h
    rw [get_posts_by_date, if_pos rfl] at h
    obtain ⟨_, h2⟩ := fetchLoop_items api limit fuel 0 [] true none none res n h
    simpa using h2
  · intro api limit fuel res n hl h
    rw [get_posts_by_date, if_pos rfl] at h
    have h0 : ((([] : List RawPost).length : Int)) < limit := by
      simpa using hl
    rcases fetchLoop_overshoot api limit fuel 0 [] true none none res n hl h0 h with
      h1 | ⟨j, _, hj2, q, hq1, hq2⟩
    · exact Or.inl h1
    · exact Or.inr ⟨j, hj2, q, hq1, hq2⟩

/-- Witness for C4 at concrete inputs: a false guard returns the accumulator
at once, and a concrete run with limit 3 returns the whole 5-item page —
exactly the well-formed pages delivered, not cut at the limit. -/
theorem fetch_pagination_guard_and_page_atomicity_witness :
    fetchLoop c4Api 3 5 7 [] false none none = some ([], 7) ∧
    c4Page.items = okCat c4Api 0 1 :=
  ⟨fetch_pagination_guard_and_page_atomicity.1 c4Api 3 4 7 [] false none none (Or.inl rfl),
    fetch_pagination_guard_and_page_atomicity.2.2.1 c4Api 3 5 c4Page.items 1 (by decide)⟩

/-- C5: when authentication fails — in particular when client credentials are
missing, or the credential exchange response lacks an `access_token` field —
both fetch entry points return an empty sequence at once, issuing zero page
requests. -/
theorem auth_failure_aborts_fetch_empty :
    (∀ resp : AuthResponse, authenticate false false resp = false) ∧
    authenticate false true (.ok false) = false ∧
    (∀ (cached creds : Bool) (resp : AuthResponse) (api : Nat → ApiResult) (limit : Int)
        (fuel : Nat),
        authenticate cached creds resp = false →
        get_posts_by_date (authenticate cached creds resp) api limit fuel = some ([], 0) ∧
        get_top_posts (authenticate cached creds resp) api limit fuel = some ([], 0)) := by
  refine ⟨fun resp => rfl, rfl, ?_⟩
  intro cached creds resp api limit fuel h
  rw [h]
  exact ⟨rfl, rfl⟩

/-- Witness for C5: a token-less exchange response makes both fetch entry
points return an empty result with zero page requests issued. -/
theorem auth_failure_aborts_fetch_empty_witness :
    get_posts_by_date (authenticate false true (.ok false)) (fun _ => ApiResult.transportError)
        50 5 = some ([], 0) ∧
    get_top_posts (authenticate false true (.ok false)) (fun _ => ApiResult.transportError)
        50 5 = some ([], 0) :=
  auth_failure_aborts_fetch_empty.2.2 false true (.ok false)
    (fun _ => ApiResult.transportError) 50 5 rfl

/-- A fetch returns exactly the well-formed pages among the requests it
issued (whether or not authentication succeeded). -/
theorem get_posts_by_date_shape (authOk : Bool) (api : Nat → ApiResult) (limit : Int)
    (fuel : Nat) (posts : List RawPost) (n : Nat)
    (h : get_posts_by_date authOk api limit fuel = some (posts, n)) :
    posts = okCat api 0 n := by
  rw [get_posts_by_date] at h
  cases authOk with
  | true =>
    rw [if_pos rfl] at h
    obtain ⟨_, h2⟩ := fetchLoop_items api limit fuel 0 [] true none none posts n h
    simpa using h2
  | false =>
    simp only [Bool.false_eq_true, if_false, Option.some.injEq, Prod.mk.injEq] at h
    obtain ⟨rfl, rfl⟩ := h
    rfl

/-- The processed rows of a multi-day scrape are the processing of its raw
posts (per-day processing commutes with concatenation because processing is a
map). -/
theorem scrape_recent_days_eq_raw (authOk : Bool) (apiFor : Nat → Nat → ApiResult)
    (limit : Int) (fuel : Nat) :
    ∀ (dayOrder : List Nat) (raws : List RawPost),
      scrape_recent_days_raw authOk apiFor dayOrder limit fuel = some raws →
      scrape_recent_days authOk apiFor dayOrder limit fuel = some (process_post_data raws) := by
  intro dayOrder
  induction dayOrder with
  | nil =>
    intro raws h
    simp only [scrape_recent_days_raw, Option.some.injEq] at h
    subst h
    rfl
  | cons d ds ih =>
    intro raws h
    rw [scrape_recent_days_raw] at h
    rw [scrape_recent_days]
    cases hfetch : get_posts_by_date authOk (apiFor d) limit fuel with
    | none => rw [hfetch] at h; cases h
    | some pr =>
      rw [hfetch] at h
      obtain ⟨posts, k⟩ := pr
      cases hrest : scrape_recent_days_raw authOk apiFor ds limit fuel with
      | none => rw [hrest] at h; cases h
      | some rest =>
        rw [hrest] at h
        simp only [Option.some.injEq] at h
        subst h
        rw [ih rest hrest]
        simp [process_post_data]

/-- Every post id in the raw output of a multi-day scrape comes from the
well-formed pages of one of the scraped days. -/
theorem scrape_recent_days_raw_ids_from_days (authOk : Bool) (apiFor : Nat → Nat → ApiResult)
    (limit : Int) (fuel : Nat) :
    ∀ (dayOrder : List Nat) (raws : List RawPost),
      scrape_recent_days_raw authOk apiFor dayOrder limit fuel = some raws →
      ∀ x ∈ raws.map RawPost.id,
        ∃ d ∈ dayOrder, ∃ n, x ∈ (okCat (apiFor d) 0 n).map RawPost.id := by
  intro dayOrder
  induction dayOrder with
  | nil =>
    intro raws h x hx
    simp only [scrape_recent_days_raw, Option.some.injEq] at h
    subst h
    simp at hx
  | cons d ds ih =>
    intro raws h x hx
    rw [scrape_recent_days_raw] at h
    cases hfetch : get_posts_by_date authOk (apiFor d) limit fuel with
    | none => rw [hfetch] at h; cases h
    | some pr =>
      rw [hfetch] at h
      obtain ⟨posts, k⟩ := pr
      cases hrest : scrape_recent_days_raw authOk apiFor ds limit fuel with
      | none => rw [hrest] at h; cases h
      | some rest =>
        rw [hrest] at h
        simp only [Option.some.injEq] at h
        subst h
        rw [List.map_append, List.mem_append] at hx
        rcases hx with hx | hx
        · refine ⟨d, List.mem_cons_self d ds, k, ?_⟩
          rw [get_posts_by_date_shape authOk (apiFor d) limit fuel posts k hfetch] at hx
          exact hx
        · obtain ⟨d', hd', n', hx'⟩ := ih rest hrest x hx
          exact ⟨d', List.mem_cons_of_mem d hd', n', hx'⟩

/-- C2 (amended): provided the upstream delivers each post id at most once
among a day's pages and never delivers the same id for two different days,
a multi-day scrape (over distinct day indices, as produced by shuffling
`range(days)`) yields raw posts with pairwise distinct ids — hence at most
one exported row per distinct post id, the rows being the posts mapped
through the normalizer. -/
theorem scrape_rows_unique_ids_under_upstream_uniqueness :
    ∀ (authOk : Bool) (apiFor : Nat → Nat → ApiResult) (dayOrder : List Nat) (limit : Int)
      (fuel : Nat) (raws : List RawPost),
      dayOrder.Nodup →
      (∀ d n, ((okCat (apiFor d) 0 n).map RawPost.id).Nodup) →
      (∀ d d' n n' x, d ≠ d' → x ∈ (okCat (apiFor d) 0 n).map RawPost.id →
        x ∉ (okCat (apiFor d') 0 n').map RawPost.id) →
      scrape_recent_days_raw authOk apiFor dayOrder limit fuel = some raws →
      (raws.map RawPost.id).Nodup ∧
      scrape_recent_days authOk apiFor dayOrder limit fuel = some (process_post_data raws) := by
  intro authOk apiFor dayOrder limit fuel raws hday h1 h3 hrun
  refine ⟨?_, scrape_recent_days_eq_raw authOk apiFor limit fuel dayOrder raws hrun⟩
  induction dayOrder generalizing raws with
  | nil =>
    simp only [scrape_recent_days_raw, Option.some.injEq] at hrun
    subst hrun
    simp
  | cons d ds ih =>
    rw [scrape_recent_days_raw] at hrun
    cases hfetch : get_posts_by_date authOk (apiFor d) limit fuel with
    | none => rw [hfetch] at hrun; cases hrun
    | some pr =>
      rw [hfetch] at hrun
      obtain ⟨posts, k⟩ := pr
      cases hrest : scrape_recent_days_raw authOk apiFor ds limit fuel with
      | none => rw [hrest] at hrun; cases hrun
      | some rest =>
        rw [hrest] at hrun
        simp only [Option.some.injEq] at hrun
        subst hrun
        obtain ⟨hd_notin, hds⟩ := List.nodup_cons.mp hday
        have hshape := get_posts_by_date_shape authOk (apiFor d) limit fuel posts k hfetch
        rw [List.map_append]
        refine List.Nodup.append ?_ (ih rest hds hrest) ?_
        · rw [hshape]; exact h1 d k
        · intro x hxposts hxrest
          obtain ⟨d', hd', n', hx'⟩ :=
            scrape_recent_days_raw_ids_from_days authOk apiFor limit fuel ds rest hrest x hxrest
          have hne : d ≠ d' := fun hc => hd_notin (hc ▸ hd')
          rw [hshape] at hxposts
          exact h3 d d' k n' x hne hxposts hx'

/-- Counterexample to C2 as stated: the pipeline performs no deduplication, so
a fetch whose upstream delivers the same post id on two pages produces two
rows for that id — the exported record set does not have one row per distinct
post id encountered. -/
theorem scrape_duplicate_id_counterexample :
    get_posts_by_date true c2Api 50 5 = some ([samplePost 'x', samplePost 'x'], 2) ∧
    ¬ (([samplePost 'x', samplePost 'x'].map RawPost.id).Nodup) ∧
    (process_post_data [samplePost 'x', samplePost 'x']).length = 2 := by
  refine ⟨by decide, by decide, rfl⟩

/-- For day indices other than 0 the witness oracle only fails. -/
theorem c2w_okCat_other (d : Nat) (hd : d ≠ 0) (k i : Nat) :
    okCat (c2wApiFor d) i k = [] := by
  apply okCat_of_failures
  intro j _ _
  simp [c2wApiFor, hd, ApiResult.isFailure]

/-- For day 0, requests after the first all fail. -/
theorem c2w_okCat_zero_tail (k i : Nat) (hi : 1 ≤ i) : okCat (c2wApiFor 0) i k = [] := by
  apply okCat_of_failures
  intro j hj _
  have hj0 : j ≠ 0 := by omega
  simp [c2wApiFor, hj0, ApiResult.isFailure]

/-- The witness oracle delivers pairwise distinct ids within each day. -/
theorem c2w_nodup_within (d n : Nat) : ((okCat (c2wApiFor d) 0 n).map RawPost.id).Nodup := by
  by_cases hd : d = 0
  · subst hd
    cases n with
    | zero => simp [okCat]
    | succ k =>
      rw [okCat_succ, c2w_okCat_zero_tail k 1 (by omega)]
      decide
  · rw [c2w_okCat_other d hd n 0]
    simp

/-- The witness oracle never delivers the same id on two distinct days. -/
theorem c2w_disjoint_across (d d' n n' : Nat) (x : Str) (hne : d ≠ d')
    (hx : x ∈ (okCat (c2wApiFor d) 0 n).map RawPost.id) :
    x ∉ (okCat (c2wApiFor d') 0 n').map RawPost.id := by
  by_cases hd' : d' = 0
  · subst hd'
    have hd : d ≠ 0 := hne
    rw [c2w_okCat_other d hd n 0] at hx
    simp at hx
  · rw [c2w_okCat_other d' hd' n' 0]
    simp

/-- Witness for the amended C2 at a concrete two-day run: the scraped rows
carry pairwise distinct post ids. -/
theorem scrape_rows_unique_ids_witness :
    (([samplePost 'u', samplePost 'v'].map RawPost.id).Nodup) ∧
    scrape_recent_days true c2wApiFor [0, 1] 50 5 =
      some (process_post_data [samplePost 'u', samplePost 'v']) :=
  scrape_rows_unique_ids_under_upstream_uniqueness true c2wApiFor [0, 1] 50 5
    [samplePost 'u', samplePost 'v'] (by decide) c2w_nodup_within c2w_disjoint_across
    (by decide)

/-- Characters before the first 'T' are exactly the prefix preceding it. -/
theorem takeWhile_until_T (d rest : Str) (hd : ∀ c ∈ d, c ≠ 'T') :
    (d ++ 'T' :: rest).takeWhile (fun c => c != 'T') = d := by
  induction d with
  | nil => simp
  | cons c cs ih =>
    have hc : c ≠ 'T' := hd c (List.mem_cons_self c cs)
    rw [List.cons_append, List.takeWhile_cons]
    have hcb : (c != 'T') = true := by simp [hc]
    rw [if_pos hcb, ih (fun a ha => hd a (List.mem_cons_of_mem _ ha))]

/-- C6: the normalizer is a pure total function of the raw post (total by
construction in this embedding, matching the source's exclusive use of
defaulting reads on optional fields): a missing `topics` field yields an empty
`Topics` string, the launch date is the calendar-day portion (the part before
the 'T') of the creation timestamp, and a missing vote count defaults to
zero. -/
theorem normalize_total_defaults :
    (∀ post : RawPost, post.topics = none → (process_post_data_one post).topics = []) ∧
    (∀ (post : RawPost) (d rest : Str), (∀ c ∈ d, c ≠ 'T') →
      post.createdAt = some (d ++ 'T' :: rest) →
      (process_post_data_one post).launchDate = d) ∧
    (∀ post : RawPost, post.votesCount = none → (process_post_data_one post).upvotes = 0) := by
  refine ⟨?_, ?_, ?_⟩
  · intro post h
    simp [process_post_data_one, h, List.intercalate]
  · intro post d rest hd hca
    have htru : strTruthy (some (d ++ 'T' :: rest)) = true := by
      simp [strTruthy]
    simp only [process_post_data_one, hca, htru, if_true, Option.getD_some]
    exact takeWhile_until_T d rest hd
  · intro post h
    simp [process_post_data_one, h]

/-- Witness for C6 at a concrete raw post: `Topics` comes out empty, the
launch date is the calendar-day prefix, the missing vote count becomes 0. -/
theorem normalize_total_defaults_witness :
    (process_post_data_one c6Post).topics = [] ∧
    (process_post_data_one c6Post).launchDate = "2024-01-02".toList ∧
    (process_post_data_one c6Post).upvotes = 0 :=
  ⟨normalize_total_defaults.1 c6Post rfl,
    normalize_total_defaults.2.1 c6Post ("2024-01-02".toList) ("10:00:00Z".toList)
      (by decide) (by decide),
    normalize_total_defaults.2.2 c6Post rfl⟩

/-- Counting with any lawful `BEq` agrees with counting via decidable
equality (instance bridge for the dedup-sum lemma). -/
theorem count_eq_count_deceq {α : Type} [DecidableEq α] [BEq α] [LawfulBEq α]
    (x : α) (l : List α) :
    l.count x = @List.count α instBEqOfDecidableEq x l := by
  induction l with
  | nil => rfl
  | cons a as ih =>
    rw [List.count_cons, @List.count_cons α instBEqOfDecidableEq, ih]
    congr 1
    by_cases h : a = x
    · subst h; simp
    · simp [h]

/-- Summing the multiplicities of the distinct elements of a list recovers its
length. -/
theorem sum_map_count_dedup {α : Type} [DecidableEq α] [BEq α] [LawfulBEq α] (l : List α) :
    (l.dedup.map fun x => l.count x).sum = l.length := by
  have heq : (l.dedup.map fun x => l.count x) =
      (l.dedup.map fun x => @List.count α instBEqOfDecidableEq x l) :=
    List.map_congr_left (fun x _ => count_eq_count_deceq x l)
  rw [heq]
  exact List.sum_map_count_dedup_eq_length l

/-- The date of a daily-rollup row is its group key. -/
theorem dailyRowFor_date (recs : List Record) (d : Nat) : (dailyRowFor recs d).date = d := rfl

/-- The products count of a daily-rollup group is the number of non-null
names among the records launched on its date. -/
theorem dailyRowFor_count (recs : List Record) (d : Nat) :
    (dailyRowFor recs d).products_count =
      ((recs.filter (fun r => r.launchDate == some d)).filter
        (fun r => r.productName.isSome)).length := rfl

/-- Counting a date among the non-null launch dates counts the records
launched on that date. -/
theorem count_filterMap_launchDate (recs : List Record) (d : Nat) :
    (recs.filterMap Record.launchDate).count d =
      recs.countP (fun r => r.launchDate == some d) := by
  induction recs with
  | nil => rfl
  | cons a l ih =>
    cases h : a.launchDate with
    | none => simp [List.filterMap_cons, h, List.countP_cons, ih]
    | some x =>
      by_cases hxd : x = d
      · subst hxd
        simp [List.filterMap_cons, h, List.countP_cons, List.count_cons, ih]
      · simp [List.filterMap_cons, h, List.countP_cons, List.count_cons, ih, hxd]

/-- When every record has a non-null launch date, the non-null dates are one
per record. -/
theorem filterMap_launchDate_length (recs : List Record)
    (h : ∀ r ∈ recs, r.launchDate.isSome = true) :
    (recs.filterMap Record.launchDate).length = recs.length := by
  induction recs with
  | nil => rfl
  | cons a l ih =>
    have ha := h a (List.mem_cons_self a l)
    cases hd : a.launchDate with
    | none => rw [hd] at ha; simp at ha
    | some x =>
      simp [List.filterMap_cons, hd, ih (fun r hr => h r (List.mem_cons_of_mem a hr))]

/-- The group keys of the daily rollup are the sorted distinct non-null
launch dates. -/
theorem analyze_daily_trends_dates (recs : List Record) :
    (analyze_daily_trends (some recs)).map DailyRow.date =
      List.insertionSort (fun a b : Nat => a ≤ b) ((recs.filterMap Record.launchDate).dedup) := by
  simp only [analyze_daily_trends, List.map_map]
  have hcomp : DailyRow.date ∘ dailyRowFor recs = id := by
    funext d
    rfl
  rw [hcomp, List.map_id]

/-- C7 (amended): provided every record of the loaded set has a non-null
`Product Name` and a non-null `Launch Date`, the daily rollup has one group
per distinct launch date occurring in the Record Set — dates with no launch
are omitted and every group counts at least one launch — and the
`products_count` values summed over all groups equal the Record Set size.
Without the proviso the code undercounts: `agg({'Product Name': 'count'})`
skips NaN names and `groupby` drops NaT dates (see the counterexample). -/
theorem daily_rollup_counts :
    ∀ recs : List Record,
      (∀ r ∈ recs, r.productName.isSome = true) →
      (∀ r ∈ recs, r.launchDate.isSome = true) →
      ((analyze_daily_trends (some recs)).map DailyRow.products_count).sum = recs.length ∧
      ((analyze_daily_trends (some recs)).map DailyRow.date).Nodup ∧
      (∀ d, d ∈ (analyze_daily_trends (some recs)).map DailyRow.date ↔
        some d ∈ recs.map Record.launchDate) ∧
      (∀ row ∈ analyze_daily_trends (some recs), 0 < row.products_count) := by
  intro recs hname hdate
  have hperm : List.Perm
      (List.insertionSort (fun a b : Nat => a ≤ b) ((recs.filterMap Record.launchDate).dedup))
      ((recs.filterMap Record.launchDate).dedup) :=
    List.perm_insertionSort _ _
  have hpc : ∀ d : Nat,
      (dailyRowFor recs d).products_count = (recs.filterMap Record.launchDate).count d := by
    intro d
    rw [dailyRowFor_count]
    have hall : (recs.filter (fun r => r.launchDate == some d)).filter
        (fun r => r.productName.isSome) = recs.filter (fun r => r.launchDate == some d) := by
      rw [List.filter_eq_self]
      intro a ha
      exact hname a (List.mem_of_mem_filter ha)
    rw [hall, ← List.countP_eq_length_filter, ← count_filterMap_launchDate]
  refine ⟨?_, ?_, ?_, ?_⟩
  · simp only [analyze_daily_trends, List.map_map]
    have hmapperm := hperm.map (DailyRow.products_count ∘ dailyRowFor recs)
    rw [List.Perm.sum_eq hmapperm]
    have hcomp : DailyRow.products_count ∘ dailyRowFor recs =
        fun d => (recs.filterMap Record.launchDate).count d := by
      funext d
      rw [Function.comp_apply, hpc]
    rw [hcomp, sum_map_count_dedup, filterMap_launchDate_length recs hdate]
  · rw [analyze_daily_trends_dates]
    exact hperm.nodup_iff.mpr (List.nodup_dedup _)
  · intro d
    rw [analyze_daily_trends_dates, hperm.mem_iff, List.mem_dedup]
    simp only [List.mem_filterMap, List.mem_map]
  · intro row hrow
    simp only [analyze_daily_trends, List.mem_map] at hrow
    obtain ⟨d, hd, rfl⟩ := hrow
    rw [hpc]
    rw [hperm.mem_iff, List.mem_dedup] at hd
    exact List.count_pos_iff.mpr hd

/-- Counterexample to C7 as stated: a loaded two-record set whose second row
has a NaN `Product Name` (an empty CSV cell, as the scraper exports for a raw
post without a name) yields a rollup whose `products_count` values sum to 1,
not to the Record Set size 2 — `agg({'Product Name': 'count'})` counts only
non-null names. -/
theorem daily_rollup_nan_name_counterexample :
    ((analyze_daily_trends (some c7nanRecs)).map DailyRow.products_count).sum = 1 ∧
    c7nanRecs.length = 2 :=
  ⟨rfl, rfl⟩

/-- C8: the topic-frequency values sum to the total number of topic tokens
across all records, where each non-NaN `Topics` cell contributes one token per
comma-separated component. -/
theorem topic_frequency_sum :
    ∀ recs : List Record,
      ((analyze_topics (some recs)).map Prod.snd).sum =
        ((recs.filterMap Record.topics).map (fun s => (pySplitCommaSpace s).length)).sum := by
  intro recs
  simp only [analyze_topics]
  have hperm := (List.perm_insertionSort countGE
    (((recs.filterMap Record.topics).map pySplitCommaSpace).flatten.dedup.map
      (fun t => (t, ((recs.filterMap Record.topics).map pySplitCommaSpace).flatten.count t)))).map
    Prod.snd
  rw [List.Perm.sum_eq hperm, List.map_map]
  have hcomp :
      (Prod.snd ∘ fun t =>
          (t, ((recs.filterMap Record.topics).map pySplitCommaSpace).flatten.count t)) =
        fun t => ((recs.filterMap Record.topics).map pySplitCommaSpace).flatten.count t := by
    funext t
    rfl
  rw [hcomp, sum_map_count_dedup, List.length_flatten, List.map_map]
  rfl

/-- C10: every aggregator called before data is loaded returns an empty
result without raising: empty dict for the basic stats and the topic mapping,
empty table for the daily rollup and the top products. -/
theorem aggregators_empty_when_not_loaded :
    analyze_basic_stats none = BasicStatsResult.emptyDict ∧
    analyze_topics none = [] ∧
    analyze_daily_trends none = [] ∧
    (∀ n, get_top_products n none = []) :=
  ⟨rfl, rfl, rfl, fun _ => rfl⟩

/-- Inserting a record that fails the key predicate leaves the filtered list
unchanged. -/
theorem orderedInsert_filter_of_neg (p : Record → Bool) (a : Record) (l : List Record)
    (ha : p a = false) :
    (List.orderedInsert upvoteLE a l).filter p = l.filter p := by
  induction l with
  | nil => simp [ha]
  | cons b bs ih =>
    rw [List.orderedInsert]
    by_cases h : upvoteLE a b
    · rw [if_pos h, List.filter_cons, ha]
      simp
    · rw [if_neg h, List.filter_cons, List.filter_cons, ih]

/-- Inserting a record with the key value `v` by `orderedInsert` places it in
front of every record with value `v` already present: the walked-past prefix
holds strictly smaller values only. -/
theorem orderedInsert_filter_of_pos (v : Int) (a : Record) (l : List Record)
    (ha : a.upvotes = v) :
    (List.orderedInsert upvoteLE a l).filter (fun r => r.upvotes == v) =
      a :: l.filter (fun r => r.upvotes == v) := by
  induction l with
  | nil => simp [ha]
  | cons b bs ih =>
    rw [List.orderedInsert]
    by_cases h : upvoteLE a b
    · rw [if_pos h, List.filter_cons]
      simp [ha]
    · rw [if_neg h]
      have hlt : b.upvotes < a.upvotes := lt_of_not_le h
      have hb : (b.upvotes == v) = false := by
        rw [beq_eq_false_iff_ne]
        omega
      rw [List.filter_cons, hb, List.filter_cons, hb]
      simp only [Bool.false_eq_true, if_false]
      exact ih

/-- Stability of the ascending insertion sort: the records carrying any fixed
upvote value keep their relative order. -/
theorem insertionSort_filter_upvotes (v : Int) :
    ∀ l : List Record,
      (List.insertionSort upvoteLE l).filter (fun r => r.upvotes == v) =
        l.filter (fun r => r.upvotes == v) := by
  intro l
  induction l with
  | nil => rfl
  | cons a l ih =>
    rw [List.insertionSort]
    by_cases h : (a.upvotes == v) = true
    · have ha : a.upvotes = v := by simpa using h
      rw [orderedInsert_filter_of_pos v a _ ha, ih, List.filter_cons, h]
      simp
    · have hf : (a.upvotes == v) = false := by simpa using h
      rw [orderedInsert_filter_of_neg _ a _ hf, ih, List.filter_cons, hf]
      simp

/-- C1: `get_top_products(n)` returns `min n |RecordSet|` rows in
non-increasing order of upvote count, and the sort is stable: the full
descending sort keeps the records of every fixed upvote value exactly in
their original record order, the returned `head(n)` prefix keeps ties in a
subsequence of that original order, and the concrete two-record tie comes
back unchanged. -/
theorem get_top_products_stable_descending :
    (∀ (n : Nat) (recs : List Record),
      (get_top_products n (some recs)).length = min n recs.length ∧
      (get_top_products n (some recs)).Pairwise (fun a b => b.upvotes ≤ a.upvotes) ∧
      (∀ v : Int, (sort_values_upvotes_desc recs).filter (fun r => r.upvotes == v) =
        recs.filter (fun r => r.upvotes == v)) ∧
      (∀ v : Int, ((get_top_products n (some recs)).filter (fun r => r.upvotes == v)).Sublist
        (recs.filter (fun r => r.upvotes == v)))) ∧
    get_top_products 2 (some tieRecs) = tieRecs := by
  refine ⟨?_, by decide⟩
  intro n recs
  have hstable : ∀ v : Int,
      (sort_values_upvotes_desc recs).filter (fun r => r.upvotes == v) =
        recs.filter (fun r => r.upvotes == v) := by
    intro v
    rw [sort_values_upvotes_desc, List.filter_reverse, insertionSort_filter_upvotes,
      List.filter_reverse, List.reverse_reverse]
  refine ⟨?_, ?_, hstable, ?_⟩
  · rw [get_top_products, List.length_take, sort_values_upvotes_desc, List.length_reverse]
    rw [(List.perm_insertionSort upvoteLE recs.reverse).length_eq, List.length_reverse]
  · have hsorted : List.Pairwise upvoteLE (List.insertionSort upvoteLE recs.reverse) :=
      List.sorted_insertionSort upvoteLE recs.reverse
    have hrev : List.Pairwise (fun a b => upvoteLE b a)
        (List.insertionSort upvoteLE recs.reverse).reverse :=
      List.pairwise_reverse.mpr hsorted
    exact List.Pairwise.sublist (List.take_sublist n _) hrev
  · intro v
    rw [← hstable v]
    exact List.Sublist.filter _ (List.take_sublist n _)

/-- Witness for the amended C7 at a concrete two-record set with non-null
names and dates: the group counts sum to the set size, and the (single) group
is non-empty. -/
theorem daily_rollup_counts_witness :
    ((analyze_daily_trends (some c7recs)).map DailyRow.products_count).sum = 2 ∧
    0 < (dailyRowFor c7recs 3).products_count :=
  ⟨(daily_rollup_counts c7recs (by decide) (by decide)).1,
    (daily_rollup_counts c7recs (by decide) (by decide)).2.2.2 (dailyRowFor c7recs 3) (by
      rw [show analyze_daily_trends (some c7recs) = [dailyRowFor c7recs 3] from rfl]
      exact List.mem_singleton_self _)⟩

/-- A parser that accepts nothing sends every response to the raw-text
fallback, for any brace layout. -/
theorem parse_llm_response_raw (jsonParse : Str → Option (List (Str × Str))) (t : Str)
    (hj : ∀ s, jsonParse s = none) :
    parse_llm_response jsonParse t = .rawAnalysis t := by
  rw [parse_llm_response]
  split
  · split
    · rw [hj]
    · rfl
  · rfl

/-- Counterexample to C9 as stated: with data loaded and the client
configured but the aggregates never computed (`topics_count` and
`top_products` still `None`), the unguarded prompt construction of
ph_analyzer.py lines 248-250 raises past the boundary — the call does not
return a narrative or an error payload. -/
theorem summarize_raises_without_aggregates :
    analyze_with_llm true true none none (.responds ("ok".toList)) (.responds ("ok".toList))
      (fun _ => none) = .raisesAttrError := rfl

/-- C9 (amended): provided the aggregate inputs (`topics_count`,
`top_products`) have been computed, the summarizer never raises past its
boundary: a missing data frame or client gives the fixed error payload; a
primary-model failure is retried exactly once against the fallback model and
behaves as if that response were the primary one; a failure of both gives an
error payload carrying the failure; and an unparseable JSON span falls back
to the raw response text instead of an error.  Without the proviso the
unguarded prompt construction raises (see the counterexample). -/
theorem summarize_never_raises :
    (∀ (dfLoaded clientOk : Bool) (tc : Option (List (Str × Nat)))
        (tp : Option (List Record)) (primary fallback : LLMOutcome)
        (jsonParse : Str → Option (List (Str × Str))),
        (dfLoaded = false ∨ clientOk = false) →
        analyze_with_llm dfLoaded clientOk tc tp primary fallback jsonParse =
          .returns (.errorPayload errNotConfigured)) ∧
    (∀ (dfLoaded clientOk : Bool) (tc : List (Str × Nat)) (tp : List Record)
        (primary fallback : LLMOutcome) (jsonParse : Str → Option (List (Str × Str))),
        analyze_with_llm dfLoaded clientOk (some tc) (some tp) primary fallback jsonParse ≠
          .raisesAttrError) ∧
    (∀ (tc : List (Str × Nat)) (tp : List Record) (m t : Str) (fallback : LLMOutcome)
        (jsonParse : Str → Option (List (Str × Str))),
        fallback = .responds t →
        analyze_with_llm true true (some tc) (some tp) (.raises m) fallback jsonParse =
          .returns (parse_llm_response jsonParse t)) ∧
    (∀ (tc : List (Str × Nat)) (tp : List Record) (m m2 : Str)
        (jsonParse : Str → Option (List (Str × Str))),
        analyze_with_llm true true (some tc) (some tp) (.raises m) (.raises m2) jsonParse =
          .returns (.errorPayload m2)) ∧
    (∀ (tc : List (Str × Nat)) (tp : List Record) (t : Str) (fallback : LLMOutcome)
        (jsonParse : Str → Option (List (Str × Str))),
        (∀ s, jsonParse s = none) →
        analyze_with_llm true true (some tc) (some tp) (.responds t) fallback jsonParse =
          .returns (.rawAnalysis t)) := by
  refine ⟨?_, ?_, ?_, ?_, ?_⟩
  · intro dfLoaded clientOk tc tp primary fallback jsonParse h
    rcases h with h | h <;> subst h <;> simp [analyze_with_llm]
  · intro dfLoaded clientOk tc tp primary fallback jsonParse
    cases dfLoaded <;> cases clientOk <;> cases primary <;> cases fallback <;>
      simp [analyze_with_llm]
  · intro tc tp m t fallback jsonParse h
    subst h
    rfl
  · intro tc tp m m2 jsonParse
    rfl
  · intro tc tp t fallback jsonParse hj
    show LLMRun.returns (parse_llm_response jsonParse t) = .returns (.rawAnalysis t)
    rw [parse_llm_response_raw jsonParse t hj]

/-- Witness for the amended C9 at concrete outcomes with computed aggregates:
both-models-down yields the error payload of the fallback failure; an
unparseable response yields the raw-text fallback; a missing data frame
yields the configuration error payload. -/
theorem summarize_never_raises_witness :
    analyze_with_llm true true (some []) (some []) (.raises ("down".toList))
        (.raises ("also down".toList)) (fun _ => none) =
      .returns (.errorPayload ("also down".toList)) ∧
    analyze_with_llm true true (some []) (some []) (.responds ("no json here".toList))
        (.raises []) (fun _ => none) = .returns (.rawAnalysis ("no json here".toList)) ∧
    analyze_with_llm false true (some []) (some []) (.raises []) (.raises [])
        (fun _ => none) = .returns (.errorPayload errNotConfigured) :=
  ⟨summarize_never_raises.2.2.2.1 [] [] ("down".toList) ("also down".toList) (fun _ => none),
    summarize_never_raises.2.2.2.2 [] [] ("no json here".toList) (.raises []) (fun _ => none)
      (fun _ => rfl),
    summarize_never_raises.1 false true (some []) (some []) (.raises []) (.raises [])
      (fun _ => none) (Or.inl rfl)⟩
